import Mathlib

/-!
# Verification of the xlsx cell core (`src/XlsxCell.h`)

Shallow embedding of the cell-decoding core of the readxl package:
the reference parser `parseRef`, the rich-text resolver `parseString`,
and the `XlsxCell` accessors (`asStdString`, `asDouble`, `asDate`) and
classifier (`type`).

Modelling conventions:
* rapidxml element nodes are modelled by `XmlElem`: a name, an attribute
  list, a value string (the text content rapidxml exposes via `value()`)
  and an ordered child list.  `first_node(name)` / `first_attribute(name)`
  become `XmlElem.firstNode` / `XmlElem.firstAttribute`, and the
  `first_node(name)` / `next_sibling(name)` iteration enumerates the
  children with that name in order (`XmlElem.nodesNamed`).
* C strings carry no embedded NUL, so `strncmp(a, b, n) == 0` is modelled
  by `strncmpEq a b n` (exact equality when either string is shorter
  than `n`, otherwise equality of the first `n` characters).
* `int` is modelled by `Int` (no input in the claims approaches the
  32-bit range) and `double` by the exact rationals `ℚ`; `NA_REAL` and
  `NA_STRING` become `Option.none`.
* C++ exceptions (`Rcpp::stop`, `std::vector::at` out of range) are
  modelled by `Except`.
-/

/-- A rapidxml element node: tag name, attributes, text value, children. -/
inductive XmlElem where
  | mk (name : String) (attrs : List (String × String)) (val : String)
       (children : List XmlElem)
deriving Repr

/-- Tag name of an element. -/
def XmlElem.name : XmlElem → String
  | .mk n _ _ _ => n

/-- Attribute list of an element. -/
def XmlElem.attrs : XmlElem → List (String × String)
  | .mk _ a _ _ => a

/-- Text value of an element (rapidxml `value()`). -/
def XmlElem.val : XmlElem → String
  | .mk _ _ v _ => v

/-- Ordered child elements. -/
def XmlElem.children : XmlElem → List XmlElem
  | .mk _ _ _ c => c

/-- rapidxml `first_node(nm)`: the first child element named `nm`. -/
def XmlElem.firstNode (e : XmlElem) (nm : String) : Option XmlElem :=
  e.children.find? (fun c => c.name == nm)

/-- rapidxml `first_attribute(nm)`: the value of the attribute named `nm`. -/
def XmlElem.firstAttribute (e : XmlElem) (nm : String) : Option String :=
  (e.attrs.find? (fun a => a.1 == nm)).map (fun a => a.2)

/-- The children named `nm`, in sibling order: the sequence visited by the
`first_node(nm)` / `next_sibling(nm)` loop. -/
def XmlElem.nodesNamed (e : XmlElem) (nm : String) : List XmlElem :=
  e.children.filter (fun c => c.name == nm)

/-- `strncmp(a, b, n) == 0` for NUL-free C strings: if either string is
shorter than `n` the terminating NUL is inside the compared window, forcing
full equality; otherwise the first `n` characters are compared. -/
def strncmpEq (a b : String) (n : Nat) : Bool :=
  if a.length < n || b.length < n then a == b
  else a.toList.take n == b.toList.take n

/-- The error raised by `parseRef` via `Rcpp::stop("Invalid character '%s'
in cell ref '%s'", *cur, ref)`: the offending character and the full
reference string. -/
structure MalformedReference where
  offending : Char
  ref : String
deriving DecidableEq, Repr

/-- The loop of `parseRef`: scan left to right, accumulating digits into
`row` and uppercase letters into `col`; any other character stops with
`MalformedReference`.  `ref` is the full input, kept for the error message. -/
def parseRefLoop (ref : String) :
    List Char → Int → Int → Except MalformedReference (Int × Int)
  | [], row, col => .ok (row - 1, col - 1)
  | c :: rest, row, col =>
    if '0' ≤ c ∧ c ≤ '9' then
      parseRefLoop ref rest (row * 10 + ((c.toNat : Int) - ('0'.toNat : Int))) col
    else if 'A' ≤ c ∧ c ≤ 'Z' then
      parseRefLoop ref rest row (26 * col + ((c.toNat : Int) - ('A'.toNat : Int) + 1))
    else
      .error ⟨c, ref⟩

/-- `parseRef` from `XlsxCell.h`: cell reference string to the zero-indexed
pair `(row - 1, col - 1)`. -/
def parseRef (ref : String) : Except MalformedReference (Int × Int) :=
  parseRefLoop ref ref.toList 0 0

/-- `parseString` from `XlsxCell.h`: resolves a rich-text container
(`<si>` / `<is>`).  Reads the first `<t>` child if present, then appends the
`<t>` sub-element of every `<r>` run in sibling order, skipping runs without
one.  Returns `(found, out)`. -/
def parseString (string : XmlElem) : Bool × String :=
  (string.nodesNamed "r").foldl
    (fun acc r =>
      match r.firstNode "t" with
      | some t => (true, acc.2 ++ t.val)
      | none => acc)
    (match string.firstNode "t" with
     | some t => (true, t.val)
     | none => (false, ""))

/-- C `atoi` digit loop: accumulate decimal digits, stop at the first
non-digit. -/
def atoiLoop : List Char → Int → Int
  | [], acc => acc
  | c :: rest, acc =>
    if '0' ≤ c ∧ c ≤ '9' then
      atoiLoop rest (acc * 10 + ((c.toNat : Int) - ('0'.toNat : Int)))
    else acc

/-- C `atoi`: skip leading whitespace, optional sign, then decimal digits;
no digits parses to `0`. -/
def atoi (s : String) : Int :=
  match s.toList.dropWhile (fun c =>
      c == ' ' || c == '\t' || c == '\n' || c == '\r' ||
      c == '\x0b' || c == '\x0c') with
  | '-' :: rest => - atoiLoop rest 0
  | '+' :: rest => atoiLoop rest 0
  | cs => atoiLoop cs 0

/-- Digit scanner for `atof`: consume decimal digits, returning the
accumulated value, the number of digits consumed, and the rest. -/
def readDigits : List Char → Nat → Nat → Nat × Nat × List Char
  | [], acc, n => (acc, n, [])
  | c :: rest, acc, n =>
    if '0' ≤ c ∧ c ≤ '9' then
      readDigits rest (acc * 10 + (c.toNat - '0'.toNat)) (n + 1)
    else (acc, n, c :: rest)

/-- Exponent part for `atof`: optional sign then digits; an exponent with
no digits is not consumed (contributes 0). -/
def readExponent (cs : List Char) : Int :=
  match cs with
  | '-' :: rest => - (Int.ofNat (readDigits rest 0 0).1)
  | '+' :: rest => Int.ofNat (readDigits rest 0 0).1
  | _ => Int.ofNat (readDigits cs 0 0).1

/-- C `atof` (lenient C-locale decimal parse), with IEEE doubles modelled
as exact rationals: optional whitespace and sign, integer part, optional
fractional part, optional decimal exponent; if no digit occurs in the
integer or fractional part the result is `0`; trailing garbage is
ignored. -/
def atof (s : String) : ℚ :=
  match s.toList.dropWhile (fun c =>
      c == ' ' || c == '\t' || c == '\n' || c == '\r' ||
      c == '\x0b' || c == '\x0c') with
  | cs =>
    match (match cs with
           | '-' :: rest => ((-1 : ℚ), rest)
           | '+' :: rest => ((1 : ℚ), rest)
           | _ => ((1 : ℚ), cs)) with
    | (sign, cs1) =>
      match readDigits cs1 0 0 with
      | (ip, ipn, cs2) =>
        match (match cs2 with
               | '.' :: rest => readDigits rest 0 0
               | _ => (0, 0, cs2)) with
        | (fp, fpn, cs3) =>
          if ipn = 0 ∧ fpn = 0 then 0
          else
            match cs3 with
            | 'e' :: rest =>
              sign * ((ip : ℚ) + (fp : ℚ) / 10 ^ fpn) * 10 ^ readExponent rest
            | 'E' :: rest =>
              sign * ((ip : ℚ) + (fp : ℚ) / 10 ^ fpn) * 10 ^ readExponent rest
            | _ => sign * ((ip : ℚ) + (fp : ℚ) / 10 ^ fpn)

/-- The cell type tags of `CellType.h` used by `XlsxCell::type` (the spec's
`CellTypeTag`). -/
inductive CellType where
  | blank
  | date
  | numeric
  | text
deriving DecidableEq, Repr

/-- The diagnostic of the classifier's unknown-type warning
`Rcpp::warning("[%i, %i]: unknown type '%s'", row() + 1, col() + 1,
t->value())`. -/
structure TypeWarning where
  row : Int
  col : Int
  typeStr : String
deriving DecidableEq, Repr

/-- `XlsxCell`: the cell node together with the location parsed once from
its `r` attribute in the constructor. -/
structure XlsxCell where
  cell : XmlElem
  location : Int × Int

/-- Errors of the `XlsxCell` constructor: missing `r` attribute, or a
malformed reference from `parseRef`. -/
inductive XlsxCellError where
  | missingRefAttr
  | malformedRef (e : MalformedReference)
deriving DecidableEq, Repr

/-- The `XlsxCell` constructor: requires the `r` attribute and parses it
with `parseRef`. -/
def mkXlsxCell (node : XmlElem) : Except XlsxCellError XlsxCell :=
  match node.firstAttribute "r" with
  | none => .error .missingRefAttr
  | some r =>
    match parseRef r with
    | .error e => .error (.malformedRef e)
    | .ok loc => .ok ⟨node, loc⟩

/-- `XlsxCell::row`. -/
def XlsxCell.row (c : XlsxCell) : Int := c.location.1

/-- `XlsxCell::col`. -/
def XlsxCell.col (c : XlsxCell) : Int := c.location.2

/-- `XlsxCell::asStdString`: a missing `<v>` child yields the literal
string `"[NULL]"`; a non-shared-string cell yields the raw `<v>` text; a
shared-string cell (`t` attribute equal to `"s"`) looks the parsed index up
with `std::vector::at`, whose out-of-range throw is modelled by
`Except.error` carrying the index. -/
def XlsxCell.asStdString (c : XlsxCell) (stringTable : List String) :
    Except Int String :=
  match c.cell.firstNode "v" with
  | none => .ok "[NULL]"
  | some v =>
    match c.cell.firstAttribute "t" with
    | none => .ok v.val
    | some t =>
      if strncmpEq t "s" 3 then
        let id := atoi v.val
        if id < 0 then .error id
        else
          match stringTable[id.toNat]? with
          | some s => .ok s
          | none => .error id
      else .ok v.val

/-- `XlsxCell::asDouble`: `NA_REAL` (modelled `none`) when the `<v>` child
is absent or its text equals the `na` sentinel, else the `atof` parse. -/
def XlsxCell.asDouble (c : XlsxCell) (na : String) : Option ℚ :=
  match c.cell.firstNode "v" with
  | none => none
  | some v =>
    if na == v.val then none
    else some (atof v.val)

/-- `XlsxCell::asDate`: same sentinel handling as `asDouble`; on success
`(value - offset) * 86400`. -/
def XlsxCell.asDate (c : XlsxCell) (na : String) (offset : Int) : Option ℚ :=
  match c.cell.firstNode "v" with
  | none => none
  | some v =>
    if na == v.val then none
    else some ((atof v.val - (offset : ℚ)) * 86400)

/-- `XlsxCell::type`: classification keyed on the `t` attribute via
`strncmp`; returns the tag and an optional unknown-type warning.  The
shared-string arm's `stringTable.at(id)` throws out of range, modelled by
`Except.error` carrying the index. -/
def XlsxCell.type (c : XlsxCell) (na : String) (stringTable : List String)
    (dateStyles : List Int) : Except Int (CellType × Option TypeWarning) :=
  match c.cell.firstAttribute "t" with
  | none =>
    let style := match c.cell.firstAttribute "s" with
      | none => (-1 : Int)
      | some s => atoi s
    .ok (if dateStyles.contains style then .date else .numeric, none)
  | some t =>
    if strncmpEq t "n" 5 then
      let style := match c.cell.firstAttribute "s" with
        | none => (-1 : Int)
        | some s => atoi s
      .ok (if dateStyles.contains style then .date else .numeric, none)
    else if strncmpEq t "b" 5 then
      .ok (.numeric, none)
    else if strncmpEq t "d" 5 then
      .ok (.text, none)
    else if strncmpEq t "e" 5 then
      .ok (.blank, none)
    else if strncmpEq t "s" 5 then
      match c.cell.firstNode "v" with
      | none => .ok (.blank, none)
      | some v =>
        let id := atoi v.val
        if id < 0 then .error id
        else
          match stringTable[id.toNat]? with
          | some s => .ok (if s == na then .blank else .text, none)
          | none => .error id
    else if strncmpEq t "str" 5 then
      match c.cell.firstNode "v" with
      | none => .ok (.blank, none)
      | some v => .ok (if na == v.val then .blank else .text, none)
    else if strncmpEq t "inlineStr" 9 then
      .ok (.text, none)
    else
      .ok (.text, some ⟨c.row + 1, c.col + 1, t⟩)

/-- A character the reference parser accepts: an ASCII digit or an
uppercase letter. -/
def validRefChar (c : Char) : Prop :=
  ('0' ≤ c ∧ c ≤ '9') ∨ ('A' ≤ c ∧ c ≤ 'Z')

instance (c : Char) : Decidable (validRefChar c) := by
  unfold validRefChar; exact inferInstance

/-- Row accumulation step of the spec (§4.1): each ASCII digit updates
`row` as `row*10 + digit`; other characters leave it unchanged. -/
def rowStep (row : Int) (c : Char) : Int :=
  if '0' ≤ c ∧ c ≤ '9' then row * 10 + ((c.toNat : Int) - ('0'.toNat : Int))
  else row

/-- Column accumulation step of the spec (§4.1): each ASCII uppercase
letter updates `col` as `col*26 + (letter - 'A' + 1)`. -/
def colStep (col : Int) (c : Char) : Int :=
  if 'A' ≤ c ∧ c ≤ 'Z' then col * 26 + ((c.toNat : Int) - ('A'.toNat : Int) + 1)
  else col

/-- The one-indexed row accumulated over a reference (spec §4.1). -/
def specRowVal (cs : List Char) : Int := cs.foldl rowStep 0

/-- The one-indexed column accumulated over a reference (spec §4.1). -/
def specColVal (cs : List Char) : Int := cs.foldl colStep 0

/-- `rowStep` restricted to digit characters, over `Nat`. -/
def rowStepNat (row : Nat) (c : Char) : Nat := row * 10 + (c.toNat - 48)

/-- `colStep` restricted to uppercase characters, over `Nat`. -/
def colStepNat (col : Nat) (c : Char) : Nat := col * 26 + (c.toNat - 64)

/-- One-indexed row over `Nat` for all-digit inputs. -/
def natRowFold (cs : List Char) : Nat := cs.foldl rowStepNat 0

/-- One-indexed column over `Nat` for all-uppercase inputs. -/
def natColFold (cs : List Char) : Nat := cs.foldl colStepNat 0

/-- Decimal rendering of a row number, most significant digit first. -/
def toDec (n : Nat) : List Char :=
  if h : n < 10 then [Char.ofNat (n + 48)]
  else toDec (n / 10) ++ [Char.ofNat (n % 10 + 48)]
decreasing_by exact Nat.div_lt_self (by omega) (by omega)

/-- Bijective base-26 column letters: `1 ↦ "A"`, `26 ↦ "Z"`, `27 ↦ "AA"`. -/
def toColLetters (n : Nat) : List Char :=
  if n = 0 then []
  else toColLetters ((n - 1) / 26) ++ [Char.ofNat ((n - 1) % 26 + 65)]
decreasing_by exact Nat.lt_of_le_of_lt (Nat.div_le_self _ _) (by omega)

/-- Modelled from the spec: the conventional reference-building function
(§8), inverse to the column-letter/row-number encoding; it is not part of
the source.  Takes the zero-indexed pair returned by `parseRef` and renders
the column letters followed by the decimal row number, both one-indexed. -/
def buildRef (p : Int × Int) : String :=
  ⟨toColLetters (p.2 + 1).toNat ++ toDec (p.1 + 1).toNat⟩

/-- Concatenation of a list of strings, in order. -/
def concatAll (l : List String) : String :=
  l.foldl (fun a b => a ++ b) ""

/-- `XlsxCell::stringFromTable` (private helper of the generic accessor
`asCharSxp`): out-of-range index is warn-and-missing, in-range entry equal
to `na` is missing, else the entry.  Returns the optional string and the
optional invalid-id warning `Rcpp::warning("[%i, %i]: Invalid string id %i",
row() + 1, col() + 1, id)` (modelled as the triple of its arguments). -/
def XlsxCell.stringFromTable (c : XlsxCell) (val : String) (na : String)
    (stringTable : List String) : Option String × Option (Int × Int × Int) :=
  let id := atoi val
  if id < 0 ∨ (stringTable.length : Int) ≤ id then
    (none, some (c.row + 1, c.col + 1, id))
  else
    match stringTable[id.toNat]? with
    | some s => (if s == na then none else some s, none)
    | none => (none, some (c.row + 1, c.col + 1, id))

/-! ### Character lemmas -/

lemma char_toNat_le {a b : Char} (h : a ≤ b) : a.toNat ≤ b.toNat := by
  rw [Char.le_def, UInt32.le_def, BitVec.le_def] at h
  exact h

lemma char_toNat_inj {a b : Char} (h : a.toNat = b.toNat) : a = b := by
  have ha := Char.ofNat_toNat a
  rw [h, Char.ofNat_toNat b] at ha
  exact ha.symm

lemma digit_toNat {c : Char} (h : '0' ≤ c ∧ c ≤ '9') :
    48 ≤ c.toNat ∧ c.toNat ≤ 57 := by
  have h1 := char_toNat_le h.1
  have h2 := char_toNat_le h.2
  have e1 : ('0' : Char).toNat = 48 := by decide
  have e2 : ('9' : Char).toNat = 57 := by decide
  rw [e1] at h1
  rw [e2] at h2
  exact ⟨h1, h2⟩

lemma upper_toNat {c : Char} (h : 'A' ≤ c ∧ c ≤ 'Z') :
    65 ≤ c.toNat ∧ c.toNat ≤ 90 := by
  have h1 := char_toNat_le h.1
  have h2 := char_toNat_le h.2
  have e1 : ('A' : Char).toNat = 65 := by decide
  have e2 : ('Z' : Char).toNat = 90 := by decide
  rw [e1] at h1
  rw [e2] at h2
  exact ⟨h1, h2⟩

lemma digit_not_upper {c : Char} (hd : '0' ≤ c ∧ c ≤ '9') :
    ¬('A' ≤ c ∧ c ≤ 'Z') := by
  intro hu
  have h1 := digit_toNat hd
  have h2 := upper_toNat hu
  omega

/-! ### Lemmas on the reference-parser loop -/

lemma parseRefLoop_valid (ref : String) (cs : List Char) :
    ∀ row col : Int, (∀ c ∈ cs, validRefChar c) →
      parseRefLoop ref cs row col =
        .ok (cs.foldl rowStep row - 1, cs.foldl colStep col - 1) := by
  induction cs with
  | nil => intro row col _; rfl
  | cons c rest ih =>
    intro row col h
    have hc : validRefChar c := h c (List.mem_cons_self c rest)
    have hrest : ∀ x ∈ rest, validRefChar x :=
      fun x hx => h x (List.mem_cons_of_mem c hx)
    rcases hc with hd | hu
    · simp only [parseRefLoop]
      rw [if_pos hd, ih _ _ hrest, List.foldl_cons, List.foldl_cons]
      have hr : rowStep row c = row * 10 + ((c.toNat : Int) - ('0'.toNat : Int)) := by
        simp only [rowStep, if_pos hd]
      have hcl : colStep col c = col := by
        simp only [colStep, if_neg (digit_not_upper hd)]
      rw [hr, hcl]
    · have hnd : ¬('0' ≤ c ∧ c ≤ '9') := fun hd => digit_not_upper hd hu
      simp only [parseRefLoop]
      rw [if_neg hnd, if_pos hu, ih _ _ hrest, List.foldl_cons, List.foldl_cons]
      have hr : rowStep row c = row := by simp only [rowStep, if_neg hnd]
      have hcl : colStep col c = 26 * col + ((c.toNat : Int) - ('A'.toNat : Int) + 1) := by
        simp only [colStep, if_pos hu]
        ring
      rw [hr, hcl]

lemma parseRefLoop_ok_valid (ref : String) (cs : List Char) :
    ∀ row col : Int, ∀ p : Int × Int,
      parseRefLoop ref cs row col = .ok p → ∀ c ∈ cs, validRefChar c := by
  induction cs with
  | nil => intro _ _ _ _ c hc; simp at hc
  | cons c rest ih =>
    intro row col p h x hx
    simp only [parseRefLoop] at h
    by_cases hd : '0' ≤ c ∧ c ≤ '9'
    · rw [if_pos hd] at h
      rcases List.mem_cons.mp hx with rfl | hx2
      · exact Or.inl hd
      · exact ih _ _ _ h x hx2
    · rw [if_neg hd] at h
      by_cases hu : 'A' ≤ c ∧ c ≤ 'Z'
      · rw [if_pos hu] at h
        rcases List.mem_cons.mp hx with rfl | hx2
        · exact Or.inr hu
        · exact ih _ _ _ h x hx2
      · rw [if_neg hu] at h
        exact absurd h (by simp)

lemma parseRefLoop_error_elim (ref : String) (cs : List Char) :
    ∀ row col : Int, ∀ e : MalformedReference,
      parseRefLoop ref cs row col = .error e →
      e.ref = ref ∧ e.offending ∈ cs ∧ ¬ validRefChar e.offending := by
  induction cs with
  | nil => intro _ _ _ h; simp [parseRefLoop] at h
  | cons c rest ih =>
    intro row col e h
    simp only [parseRefLoop] at h
    by_cases hd : '0' ≤ c ∧ c ≤ '9'
    · rw [if_pos hd] at h
      obtain ⟨h1, h2, h3⟩ := ih _ _ _ h
      exact ⟨h1, List.mem_cons_of_mem c h2, h3⟩
    · rw [if_neg hd] at h
      by_cases hu : 'A' ≤ c ∧ c ≤ 'Z'
      · rw [if_pos hu] at h
        obtain ⟨h1, h2, h3⟩ := ih _ _ _ h
        exact ⟨h1, List.mem_cons_of_mem c h2, h3⟩
      · rw [if_neg hu] at h
        simp only [Except.error.injEq] at h
        subst h
        exact ⟨rfl, List.mem_cons_self c rest, fun hv => hv.elim hd hu⟩

lemma parseRefLoop_error_exists (ref : String) (cs : List Char) :
    ∀ row col : Int, (∃ c ∈ cs, ¬ validRefChar c) →
      ∃ e, parseRefLoop ref cs row col = .error e := by
  induction cs with
  | nil => intro _ _ h; obtain ⟨c, hc, _⟩ := h; simp at hc
  | cons c rest ih =>
    intro row col h
    by_cases hv : validRefChar c
    · have hrest : ∃ x ∈ rest, ¬ validRefChar x := by
        obtain ⟨x, hx, hnx⟩ := h
        rcases List.mem_cons.mp hx with rfl | hx2
        · exact absurd hv hnx
        · exact ⟨x, hx2, hnx⟩
      rcases hv with hd | hu
      · obtain ⟨e, he⟩ := ih _ _ hrest
        refine ⟨e, ?_⟩
        simp only [parseRefLoop]
        rw [if_pos hd]
        exact he
      · have hnd : ¬('0' ≤ c ∧ c ≤ '9') := fun hd => digit_not_upper hd hu
        obtain ⟨e, he⟩ := ih _ _ hrest
        refine ⟨e, ?_⟩
        simp only [parseRefLoop]
        rw [if_neg hnd, if_pos hu]
        exact he
    · have hnd : ¬('0' ≤ c ∧ c ≤ '9') := fun hd => hv (Or.inl hd)
      have hnu : ¬('A' ≤ c ∧ c ≤ 'Z') := fun hu => hv (Or.inr hu)
      refine ⟨⟨c, ref⟩, ?_⟩
      simp only [parseRefLoop]
      rw [if_neg hnd, if_neg hnu]

lemma foldl_rowStep_skip (cs : List Char) :
    ∀ r : Int, (∀ c ∈ cs, ¬('0' ≤ c ∧ c ≤ '9')) → cs.foldl rowStep r = r := by
  induction cs with
  | nil => intro r _; rfl
  | cons c rest ih =>
    intro r h
    rw [List.foldl_cons]
    have hr : rowStep r c = r := by
      simp only [rowStep, if_neg (h c (List.mem_cons_self c rest))]
    rw [hr]
    exact ih _ (fun x hx => h x (List.mem_cons_of_mem c hx))

lemma foldl_colStep_skip (cs : List Char) :
    ∀ a : Int, (∀ c ∈ cs, '0' ≤ c ∧ c ≤ '9') → cs.foldl colStep a = a := by
  induction cs with
  | nil => intro a _; rfl
  | cons c rest ih =>
    intro a h
    rw [List.foldl_cons]
    have hc : colStep a c = a := by
      simp only [colStep, if_neg (digit_not_upper (h c (List.mem_cons_self c rest)))]
    rw [hc]
    exact ih _ (fun x hx => h x (List.mem_cons_of_mem c hx))

/-- C3: `parseRef` scans left to right, accumulating digits into `row` as
`row*10 + digit` and uppercase letters into `col` as `col*26 +
(letter - 'A' + 1)`, and returns the zero-indexed pair
`(row - 1, col - 1)`; `parseRef "A1" = (0, 0)`,
`parseRef "AA12" = (11, 26)`, `parseRef "Z1" = (0, 25)`; and whenever the
input contains no digit, the returned row is `-1`. -/
theorem parseRef_accumulation (ref : String)
    (h : ∀ c ∈ ref.toList, validRefChar c) :
    parseRef ref = .ok (specRowVal ref.toList - 1, specColVal ref.toList - 1)
    ∧ parseRef "A1" = .ok (0, 0)
    ∧ parseRef "AA12" = .ok (11, 26)
    ∧ parseRef "Z1" = .ok (0, 25)
    ∧ (∀ (s : String) (p : Int × Int), parseRef s = .ok p →
        (∀ c ∈ s.toList, ¬('0' ≤ c ∧ c ≤ '9')) → p.1 = -1) := by
  refine ⟨parseRefLoop_valid ref ref.toList 0 0 h, rfl, rfl, rfl, ?_⟩
  intro s p hp hnd
  simp only [parseRef] at hp
  have hval := parseRefLoop_ok_valid s s.toList 0 0 p hp
  have hchar := parseRefLoop_valid s s.toList 0 0 hval
  rw [hp] at hchar
  have hrow := foldl_rowStep_skip s.toList 0 hnd
  simp only [Except.ok.injEq] at hchar
  have e1 : p.1 = List.foldl rowStep 0 s.toList - 1 := by rw [hchar]
  rw [e1, hrow]
  norm_num

/-- Witness for C3 at the input "B7". -/
theorem parseRef_accumulation_witness :
    parseRef "B7" = .ok (specRowVal "B7".toList - 1, specColVal "B7".toList - 1) :=
  (parseRef_accumulation "B7" (by decide)).1

/-- C4: `parseRef` accepts digits and uppercase letters in any
interleaving (`parseRef "1A"` succeeds) and fails with
`MalformedReference`, carrying the offending character and the full
reference, exactly when the input contains a character outside `[A-Z0-9]`;
`parseRef "A#1"` fails naming `'#'`. -/
theorem parseRef_charset (ref : String) :
    ((∃ c ∈ ref.toList, ¬ validRefChar c) ↔ ∃ e, parseRef ref = .error e)
    ∧ (∀ e, parseRef ref = .error e →
        e.ref = ref ∧ e.offending ∈ ref.toList ∧ ¬ validRefChar e.offending)
    ∧ parseRef "1A" = .ok (0, 0)
    ∧ parseRef "A#1" = .error ⟨'#', "A#1"⟩ := by
  refine ⟨⟨fun h => parseRefLoop_error_exists ref ref.toList 0 0 h, ?_⟩,
    fun e he => parseRefLoop_error_elim ref ref.toList 0 0 e he, rfl, rfl⟩
  intro ⟨e, he⟩
  obtain ⟨_, h2, h3⟩ := parseRefLoop_error_elim ref ref.toList 0 0 e he
  exact ⟨e.offending, h2, h3⟩

/-- Witness for C4 at the input "A#1". -/
theorem parseRef_charset_witness : ∃ e, parseRef "A#1" = .error e :=
  (parseRef_charset "A#1").1.mp ⟨'#', by decide, by decide⟩

/-- Counterexample to C5: the input "A0", whose one-indexed row is 0, is
not rejected; `parseRef` returns `(-1, 0)`, whose row component is
negative. -/
theorem parseRef_accepts_zero_row :
    parseRef "A0" = .ok (-1, 0) ∧ ¬(0 ≤ (-1 : Int)) :=
  ⟨rfl, by omega⟩

/-- C5 as amended: a non-alphanumeric character is a hard parse error
(established by `parseRef_charset`), but a one-indexed row or column of 0
is not rejected: a returned coordinate's components are non-negative
exactly when the accumulated one-indexed row and column are each at least
1, and an accepted input such as "A0" yields a negative component. -/
theorem parseRef_nonneg_iff (ref : String) (p : Int × Int)
    (h : parseRef ref = .ok p) :
    (0 ≤ p.1 ↔ 1 ≤ specRowVal ref.toList)
    ∧ (0 ≤ p.2 ↔ 1 ≤ specColVal ref.toList) := by
  simp only [parseRef] at h
  have hval := parseRefLoop_ok_valid ref ref.toList 0 0 p h
  have hchar := parseRefLoop_valid ref ref.toList 0 0 hval
  rw [h] at hchar
  simp only [Except.ok.injEq] at hchar
  have e1 : p.1 = List.foldl rowStep 0 ref.toList - 1 := by rw [hchar]
  have e2 : p.2 = List.foldl colStep 0 ref.toList - 1 := by rw [hchar]
  simp only [specRowVal, specColVal]
  rw [e1, e2]
  omega

/-- Witness for C5's amended theorem at the input "A1". -/
theorem parseRef_nonneg_iff_witness :
    (0 ≤ (0 : Int) ↔ 1 ≤ specRowVal "A1".toList)
    ∧ (0 ≤ (0 : Int) ↔ 1 ≤ specColVal "A1".toList) :=
  parseRef_nonneg_iff "A1" (0, 0) rfl

/-! ### Round trip between `parseRef` and `buildRef` -/

lemma foldl_rowStep_cast (cs : List Char) :
    ∀ n : Nat, (∀ c ∈ cs, '0' ≤ c ∧ c ≤ '9') →
      cs.foldl rowStep (n : Int) = ((cs.foldl rowStepNat n : Nat) : Int) := by
  induction cs with
  | nil => intro n _; rfl
  | cons c rest ih =>
    intro n h
    have hc := h c (List.mem_cons_self c rest)
    have h48 := (digit_toNat hc).1
    rw [List.foldl_cons, List.foldl_cons]
    have hs : rowStep (n : Int) c = ((rowStepNat n c : Nat) : Int) := by
      simp only [rowStep, rowStepNat, if_pos hc]
      have e0 : ('0' : Char).toNat = 48 := by decide
      rw [e0]
      omega
    rw [hs]
    exact ih _ (fun x hx => h x (List.mem_cons_of_mem c hx))

lemma foldl_colStep_cast (cs : List Char) :
    ∀ n : Nat, (∀ c ∈ cs, 'A' ≤ c ∧ c ≤ 'Z') →
      cs.foldl colStep (n : Int) = ((cs.foldl colStepNat n : Nat) : Int) := by
  induction cs with
  | nil => intro n _; rfl
  | cons c rest ih =>
    intro n h
    have hc := h c (List.mem_cons_self c rest)
    have h65 := (upper_toNat hc).1
    rw [List.foldl_cons, List.foldl_cons]
    have hs : colStep (n : Int) c = ((colStepNat n c : Nat) : Int) := by
      simp only [colStep, colStepNat, if_pos hc]
      have e0 : ('A' : Char).toNat = 65 := by decide
      rw [e0]
      omega
    rw [hs]
    exact ih _ (fun x hx => h x (List.mem_cons_of_mem c hx))

lemma foldl_rowStepNat_ge (cs : List Char) :
    ∀ a : Nat, a ≤ cs.foldl rowStepNat a := by
  induction cs with
  | nil => intro a; exact Nat.le_refl a
  | cons c rest ih =>
    intro a
    rw [List.foldl_cons]
    have h1 : a ≤ rowStepNat a c := by simp only [rowStepNat]; omega
    exact le_trans h1 (ih _)

lemma foldl_colStepNat_ge (cs : List Char) :
    ∀ a : Nat, a ≤ cs.foldl colStepNat a := by
  induction cs with
  | nil => intro a; exact Nat.le_refl a
  | cons c rest ih =>
    intro a
    rw [List.foldl_cons]
    have h1 : a ≤ colStepNat a c := by simp only [colStepNat]; omega
    exact le_trans h1 (ih _)

lemma natRowFold_pos (D : List Char) (hne : D ≠ [])
    (hdig : ∀ c ∈ D, '0' ≤ c ∧ c ≤ '9') (h0 : D.head? ≠ some '0') :
    1 ≤ natRowFold D := by
  obtain ⟨d, rest, rfl⟩ := List.exists_cons_of_ne_nil hne
  have hd := hdig d (List.mem_cons_self d rest)
  have h48 := digit_toNat hd
  have hd0 : d ≠ '0' := by
    intro he
    apply h0
    rw [he]
    rfl
  have hne48 : d.toNat ≠ 48 := by
    intro he
    exact hd0 (char_toNat_inj (he.trans (by decide)))
  unfold natRowFold
  rw [List.foldl_cons]
  have h1 : 1 ≤ rowStepNat 0 d := by simp only [rowStepNat]; omega
  exact le_trans h1 (foldl_rowStepNat_ge rest _)

lemma natColFold_pos (L : List Char) (hne : L ≠ [])
    (hup : ∀ c ∈ L, 'A' ≤ c ∧ c ≤ 'Z') :
    1 ≤ natColFold L := by
  obtain ⟨l, rest, rfl⟩ := List.exists_cons_of_ne_nil hne
  have h65 := upper_toNat (hup l (List.mem_cons_self l rest))
  unfold natColFold
  rw [List.foldl_cons]
  have h1 : 1 ≤ colStepNat 0 l := by simp only [colStepNat]; omega
  exact le_trans h1 (foldl_colStepNat_ge rest _)

lemma toDec_roundtrip (D : List Char) :
    D ≠ [] → (∀ c ∈ D, '0' ≤ c ∧ c ≤ '9') → D.head? ≠ some '0' →
    toDec (natRowFold D) = D := by
  induction D using List.reverseRecOn with
  | nil => intro hne _ _; exact absurd rfl hne
  | append_singleton init d ih =>
    intro _ hdig h0
    have hd : '0' ≤ d ∧ d ≤ '9' := hdig d (by simp)
    have h48 := digit_toNat hd
    rcases eq_or_ne init [] with rfl | hinit
    · have hfold : natRowFold ([] ++ [d]) = d.toNat - 48 := by
        simp only [natRowFold, List.nil_append, List.foldl_cons, List.foldl_nil,
          rowStepNat]
        omega
      rw [hfold, toDec]
      have hv : d.toNat - 48 < 10 := by omega
      rw [dif_pos hv]
      have he : d.toNat - 48 + 48 = d.toNat := by omega
      rw [he, Char.ofNat_toNat, List.nil_append]
    · have hdig2 : ∀ c ∈ init, '0' ≤ c ∧ c ≤ '9' := fun c hc => hdig c (by simp [hc])
      have h02 : init.head? ≠ some '0' := by
        obtain ⟨i0, irest, rfl⟩ := List.exists_cons_of_ne_nil hinit
        simpa using h0
      have hpos := natRowFold_pos init hinit hdig2 h02
      have hfold : natRowFold (init ++ [d]) = natRowFold init * 10 + (d.toNat - 48) := by
        simp only [natRowFold, List.foldl_append, List.foldl_cons, List.foldl_nil,
          rowStepNat]
      rw [hfold, toDec]
      have h10 : ¬(natRowFold init * 10 + (d.toNat - 48) < 10) := by omega
      rw [dif_neg h10]
      have hdiv : (natRowFold init * 10 + (d.toNat - 48)) / 10 = natRowFold init := by
        omega
      have hmod : (natRowFold init * 10 + (d.toNat - 48)) % 10 = d.toNat - 48 := by
        omega
      rw [hdiv, hmod, ih hinit hdig2 h02]
      have he : d.toNat - 48 + 48 = d.toNat := by omega
      rw [he, Char.ofNat_toNat]

lemma toColLetters_roundtrip (L : List Char) :
    (∀ c ∈ L, 'A' ≤ c ∧ c ≤ 'Z') → toColLetters (natColFold L) = L := by
  induction L using List.reverseRecOn with
  | nil =>
    intro _
    rw [toColLetters]
    simp [natColFold]
  | append_singleton init l ih =>
    intro hup
    have h65 := upper_toNat (hup l (by simp))
    have hfold : natColFold (init ++ [l]) = natColFold init * 26 + (l.toNat - 64) := by
      simp only [natColFold, List.foldl_append, List.foldl_cons, List.foldl_nil,
        colStepNat]
    rw [hfold, toColLetters]
    have hne0 : ¬(natColFold init * 26 + (l.toNat - 64) = 0) := by omega
    rw [if_neg hne0]
    have hsub : natColFold init * 26 + (l.toNat - 64) - 1 =
        natColFold init * 26 + (l.toNat - 65) := by omega
    rw [hsub]
    have hdiv : (natColFold init * 26 + (l.toNat - 65)) / 26 = natColFold init := by
      omega
    have hmod : (natColFold init * 26 + (l.toNat - 65)) % 26 = l.toNat - 65 := by
      omega
    rw [hdiv, hmod, ih (fun c hc => hup c (by simp [hc]))]
    have he : l.toNat - 65 + 65 = l.toNat := by omega
    rw [he, Char.ofNat_toNat]

/-- Counterexample to C9: the reference "A01" matches `[A-Z]+[0-9]+`, but
rebuilding from its parse yields "A1", not "A01" — the round trip fails on
leading zeros in the digit part. -/
theorem buildRef_parseRef_leading_zero :
    parseRef "A01" = .ok (0, 0) ∧ buildRef (0, 0) = "A1"
    ∧ ("A1" : String) ≠ "A01" := by
  refine ⟨rfl, ?_, by decide⟩
  simp [buildRef, toColLetters, toDec]

/-- C9 as amended: for references of the form letters-then-digits with no
leading zero in the digit part, rebuilding from `parseRef`'s result with
`buildRef` returns the original string. -/
theorem buildRef_parseRef_roundtrip (L D : List Char) (hL : L ≠ [])
    (hLu : ∀ c ∈ L, 'A' ≤ c ∧ c ≤ 'Z') (hD : D ≠ [])
    (hDd : ∀ c ∈ D, '0' ≤ c ∧ c ≤ '9') (h0 : D.head? ≠ some '0') :
    ∃ p, parseRef (String.mk (L ++ D)) = .ok p
      ∧ buildRef p = String.mk (L ++ D) := by
  have hvalid : ∀ c ∈ L ++ D, validRefChar c := by
    intro c hc
    rcases List.mem_append.mp hc with h | h
    · exact Or.inr (hLu c h)
    · exact Or.inl (hDd c h)
  have hchar := parseRefLoop_valid (String.mk (L ++ D)) (L ++ D) 0 0 hvalid
  refine ⟨(List.foldl rowStep 0 (L ++ D) - 1, List.foldl colStep 0 (L ++ D) - 1),
    hchar, ?_⟩
  rw [List.foldl_append, List.foldl_append]
  have hrowL : List.foldl rowStep 0 L = 0 :=
    foldl_rowStep_skip L 0 (fun c hc hd => digit_not_upper hd (hLu c hc))
  have hcolD : List.foldl colStep (List.foldl colStep 0 L) D = List.foldl colStep 0 L :=
    foldl_colStep_skip D _ hDd
  rw [hrowL, hcolD]
  have hrcast : List.foldl rowStep (0 : Int) D = ((natRowFold D : Nat) : Int) := by
    simpa [natRowFold] using foldl_rowStep_cast D 0 hDd
  have hccast : List.foldl colStep (0 : Int) L = ((natColFold L : Nat) : Int) := by
    simpa [natColFold] using foldl_colStep_cast L 0 hLu
  rw [hrcast, hccast]
  simp only [buildRef]
  have e1 : ((natRowFold D : Int) - 1 + 1) = (natRowFold D : Int) := by ring
  have e2 : ((natColFold L : Int) - 1 + 1) = (natColFold L : Int) := by ring
  rw [e1, e2, Int.toNat_natCast, Int.toNat_natCast,
    toDec_roundtrip D hD hDd h0, toColLetters_roundtrip L hLu]

/-- Witness for C9's amended theorem at the reference "AA12". -/
theorem buildRef_parseRef_roundtrip_witness :
    ∃ p, parseRef (String.mk (['A', 'A'] ++ ['1', '2'])) = .ok p
      ∧ buildRef p = String.mk (['A', 'A'] ++ ['1', '2']) :=
  buildRef_parseRef_roundtrip ['A', 'A'] ['1', '2'] (by decide) (by decide)
    (by decide) (by decide) (by decide)

/-! ### Rich-text resolution -/

lemma foldl_append_init (l : List String) :
    ∀ x y : String,
      l.foldl (fun a b => a ++ b) (x ++ y) = x ++ l.foldl (fun a b => a ++ b) y := by
  induction l with
  | nil => intro x y; rfl
  | cons a rest ih =>
    intro x y
    rw [List.foldl_cons, List.foldl_cons, String.append_assoc, ih]

lemma concatAll_cons (a : String) (l : List String) :
    concatAll (a :: l) = a ++ concatAll l := by
  simp only [concatAll, List.foldl_cons]
  rw [String.empty_append, ← String.append_empty a, foldl_append_init]
  rw [String.append_empty]

lemma parseString_foldl (rs : List XmlElem) :
    ∀ (b : Bool) (s : String),
      rs.foldl (fun acc r =>
        match r.firstNode "t" with
        | some t => (true, acc.2 ++ t.val)
        | none => acc) (b, s) =
      (b || rs.any (fun r => (r.firstNode "t").isSome),
       s ++ concatAll (rs.map (fun r =>
         match r.firstNode "t" with
         | some t => t.val
         | none => ""))) := by
  induction rs with
  | nil => intro b s; simp [concatAll, String.append_empty]
  | cons r rest ih =>
    intro b s
    rw [List.foldl_cons]
    cases ht : r.firstNode "t" with
    | some t =>
      simp only [ht, List.any_cons, Option.isSome_some, List.map_cons]
      rw [ih true (s ++ t.val), concatAll_cons, String.append_assoc]
      simp
    | none =>
      simp only [ht, List.any_cons, Option.isSome_none, List.map_cons]
      rw [ih b s, concatAll_cons, String.empty_append]
      simp

/-- C6: `parseString` returns found = true together with the content of the
first plain-text `<t>` child (empty contribution when absent) followed by
the concatenated `<t>` contents of the `<r>` runs in sibling order, runs
without a `<t>` contributing nothing; found = false exactly when neither a
plain-text child nor any run contributed.  In particular `<t>hello</t>`
gives "hello", `<t>hello</t><r><t> world</t></r>` gives "hello world",
and a single empty `<r></r>` gives found = false. -/
theorem parseString_resolution (node : XmlElem) :
    parseString node =
      ((node.firstNode "t").isSome
         || (node.nodesNamed "r").any (fun r => (r.firstNode "t").isSome),
       (match node.firstNode "t" with
        | some t => t.val
        | none => "") ++
         concatAll ((node.nodesNamed "r").map (fun r =>
           match r.firstNode "t" with
           | some t => t.val
           | none => "")))
    ∧ parseString (.mk "si" [] "" [.mk "t" [] "hello" []]) = (true, "hello")
    ∧ parseString (.mk "si" [] "" [.mk "t" [] "hello" [],
        .mk "r" [] "" [.mk "t" [] " world" []]]) = (true, "hello world")
    ∧ parseString (.mk "si" [] "" [.mk "r" [] "" []]) = (false, "") := by
  refine ⟨?_, rfl, rfl, rfl⟩
  simp only [parseString]
  cases ht : node.firstNode "t" with
  | some t =>
    simp only [ht, Option.isSome_some]
    rw [parseString_foldl (node.nodesNamed "r") true t.val]
  | none =>
    simp only [ht, Option.isSome_none]
    rw [parseString_foldl (node.nodesNamed "r") false "", String.empty_append]

/-! ### Value accessors -/

/-- C7: `asDouble` returns the not-available marker iff the value child is
absent or its raw text equals the sentinel, and otherwise the lenient
C-locale parse of the raw text; with sentinel "NA": "NA" gives the marker,
"3.14" gives 3.14, and "abc" gives 0. -/
theorem asDouble_sentinel_and_parse (c : XlsxCell) (na : String) :
    (c.asDouble na = none ↔
      (c.cell.firstNode "v" = none ∨
        ∃ v, c.cell.firstNode "v" = some v ∧ v.val = na))
    ∧ (∀ v, c.cell.firstNode "v" = some v → v.val ≠ na →
        c.asDouble na = some (atof v.val))
    ∧ XlsxCell.asDouble ⟨.mk "c" [] "" [.mk "v" [] "NA" []], (0, 0)⟩ "NA" = none
    ∧ XlsxCell.asDouble ⟨.mk "c" [] "" [.mk "v" [] "3.14" []], (0, 0)⟩ "NA"
        = some (3.14 : ℚ)
    ∧ XlsxCell.asDouble ⟨.mk "c" [] "" [.mk "v" [] "abc" []], (0, 0)⟩ "NA"
        = some 0 := by
  refine ⟨?_, ?_, ?_, ?_, ?_⟩
  · cases hv : c.cell.firstNode "v" with
    | none => simp [XlsxCell.asDouble, hv]
    | some v =>
      by_cases he : na = v.val
      · simp [XlsxCell.asDouble, hv, he]
      · have hb : ¬(na == v.val) = true := by
          simp only [beq_iff_eq]
          exact he
        simp only [XlsxCell.asDouble, hv, if_neg hb]
        constructor
        · intro h
          exact absurd h (by simp)
        · rintro (h | ⟨v2, hv2, he2⟩)
          · exact absurd h (by simp)
          · simp only [Option.some.injEq] at hv2
            subst hv2
            exact absurd he2.symm he
  · intro v hv hne
    simp only [XlsxCell.asDouble, hv]
    have hb : ¬(na == v.val) = true := by
      simp only [beq_iff_eq]
      exact fun h => hne h.symm
    rw [if_neg hb]
  · simp +decide [XlsxCell.asDouble, XmlElem.firstNode, XmlElem.children,
      XmlElem.name, XmlElem.val, List.find?]
  · simp +decide [XlsxCell.asDouble, XmlElem.firstNode, XmlElem.children,
      XmlElem.name, XmlElem.val, List.find?, atof, readDigits]
    norm_num
  · simp +decide [XlsxCell.asDouble, XmlElem.firstNode, XmlElem.children,
      XmlElem.name, XmlElem.val, List.find?, atof, readDigits]

/-- Witness for C7 at a cell whose value child holds "7". -/
theorem asDouble_sentinel_and_parse_witness :
    XlsxCell.asDouble ⟨.mk "c" [] "" [.mk "v" [] "7" []], (0, 0)⟩ "NA"
      = some (atof "7") :=
  (asDouble_sentinel_and_parse ⟨.mk "c" [] "" [.mk "v" [] "7" []], (0, 0)⟩
    "NA").2.1 (.mk "v" [] "7" []) rfl (by decide)

/-- C8: `asDate` applies the same missing/sentinel handling as `asDouble`
and otherwise returns `(parsedValue - epochOffset) * 86400`; value "42"
with epoch offset 25569 gives exactly `(42 - 25569) * 86400` seconds, a
negative value. -/
theorem asDate_sentinel_and_epoch (c : XlsxCell) (na : String) (offset : Int) :
    (c.asDate na offset = none ↔ c.asDouble na = none)
    ∧ (∀ v, c.cell.firstNode "v" = some v → v.val ≠ na →
        c.asDate na offset = some ((atof v.val - (offset : ℚ)) * 86400))
    ∧ XlsxCell.asDate ⟨.mk "c" [] "" [.mk "v" [] "42" []], (0, 0)⟩ "NA" 25569
        = some (((42 : ℚ) - 25569) * 86400)
    ∧ ((42 : ℚ) - 25569) * 86400 = -2205532800
    ∧ ((42 : ℚ) - 25569) * 86400 < 0 := by
  refine ⟨?_, ?_, ?_, by norm_num, by norm_num⟩
  · cases hv : c.cell.firstNode "v" with
    | none => simp [XlsxCell.asDate, XlsxCell.asDouble, hv]
    | some v =>
      by_cases he : na = v.val
      · simp [XlsxCell.asDate, XlsxCell.asDouble, hv, he]
      · simp [XlsxCell.asDate, XlsxCell.asDouble, hv, he]
  · intro v hv hne
    simp only [XlsxCell.asDate, hv]
    have hb : ¬(na == v.val) = true := by
      simp only [beq_iff_eq]
      exact fun h => hne h.symm
    rw [if_neg hb]
  · simp +decide [XlsxCell.asDate, XmlElem.firstNode, XmlElem.children,
      XmlElem.name, XmlElem.val, List.find?, atof, readDigits]

/-- Witness for C8 at a cell whose value child holds "42". -/
theorem asDate_sentinel_and_epoch_witness :
    XlsxCell.asDate ⟨.mk "c" [] "" [.mk "v" [] "42" []], (0, 0)⟩ "NA" 25569
      = some ((atof "42" - (25569 : ℚ)) * 86400) :=
  (asDate_sentinel_and_epoch ⟨.mk "c" [] "" [.mk "v" [] "42" []], (0, 0)⟩
    "NA" 25569).2.1 (.mk "v" [] "42" []) rfl (by decide)

/-- C10: when the `<v>` value child is absent, `asStdString` returns the
literal string "[NULL]" (no error, no distinguished marker); a cell whose
stored text is exactly "[NULL]" produces the same result, so the two are
indistinguishable. -/
theorem asStdString_null_literal (c : XlsxCell) (stringTable : List String)
    (h : c.cell.firstNode "v" = none) :
    c.asStdString stringTable = .ok "[NULL]"
    ∧ XlsxCell.asStdString ⟨.mk "c" [] "" [.mk "v" [] "[NULL]" []], (0, 0)⟩
        stringTable = .ok "[NULL]" := by
  constructor
  · simp only [XlsxCell.asStdString, h]
  · rfl

/-- Witness for C10 at a cell with no value child. -/
theorem asStdString_null_literal_witness :
    XlsxCell.asStdString ⟨.mk "c" [] "" [], (0, 0)⟩ [] = .ok "[NULL]"
    ∧ XlsxCell.asStdString ⟨.mk "c" [] "" [.mk "v" [] "[NULL]" []], (0, 0)⟩ []
      = .ok "[NULL]" :=
  asStdString_null_literal ⟨.mk "c" [] "" [], (0, 0)⟩ [] rfl

/-! ### Classification -/

lemma strncmpEq_short {a b : String} {n : Nat} (hb : b.length < n) :
    strncmpEq a b n = true ↔ a = b := by
  unfold strncmpEq
  rw [if_pos (by simp [hb])]
  exact beq_iff_eq

lemma strncmpEq_false_of_ne {a b : String} {n : Nat} (hb : b.length < n)
    (hne : a ≠ b) : ¬ strncmpEq a b n = true :=
  fun h => hne ((strncmpEq_short hb).mp h)

lemma strncmpEq_inlineStr (t : String) :
    strncmpEq t "inlineStr" 9 = true ↔ t.toList.take 9 = "inlineStr".toList := by
  unfold strncmpEq
  have hb : ("inlineStr" : String).length = 9 := by decide
  have h9 : ("inlineStr" : String).toList.length = 9 := by decide
  have hlen : t.length = t.toList.length := rfl
  by_cases ht : t.length < 9
  · rw [if_pos (by simp [ht, hb])]
    constructor
    · intro h
      have he := beq_iff_eq.mp h
      rw [he, hb] at ht
      exact absurd ht (by omega)
    · intro h
      have hc := congrArg List.length h
      rw [List.length_take, h9] at hc
      omega
  · rw [if_neg (by simp [ht, hb])]
    have htake : ("inlineStr" : String).toList.take 9 = ("inlineStr" : String).toList := by
      decide
    rw [htake]
    exact beq_iff_eq

/-- Counterexample to C1: the attribute value "inlineStrX" is none of the
recognized type strings, yet classification yields `Text` with no warning,
because the source compares only the first nine characters against
"inlineStr". -/
theorem classify_inlineStr_extension_no_warning :
    XlsxCell.type ⟨.mk "c" [("t", "inlineStrX")] "" [], (0, 0)⟩ "" [] []
      = .ok (CellType.text, none)
    ∧ ("inlineStrX" : String) ∉
        (["n", "b", "d", "e", "s", "str", "inlineStr"] : List String) :=
  ⟨rfl, by decide⟩

/-- C1 as amended: classification maps the declared type attribute as the
claim states in every arm, except that the inline-string test compares only
the first nine characters, so any attribute value beginning with
"inlineStr" (not just "inlineStr" itself) yields `Text` without a warning;
the warning arm fires for values that are none of the six exact strings and
do not begin with "inlineStr"; and the shared-string arm is described for
indices that resolve in the table (out of range is C2's concern). -/
theorem classify_by_type_attribute (c : XlsxCell) (na : String)
    (stringTable : List String) (dateStyles : List Int) :
    ((c.cell.firstAttribute "t" = none ∨ c.cell.firstAttribute "t" = some "n") →
      c.type na stringTable dateStyles =
        .ok (if dateStyles.contains
              (match c.cell.firstAttribute "s" with
               | none => -1
               | some s => atoi s)
            then CellType.date else CellType.numeric, none))
    ∧ (c.cell.firstAttribute "t" = some "b" →
        c.type na stringTable dateStyles = .ok (CellType.numeric, none))
    ∧ (c.cell.firstAttribute "t" = some "d" →
        c.type na stringTable dateStyles = .ok (CellType.text, none))
    ∧ (c.cell.firstAttribute "t" = some "e" →
        c.type na stringTable dateStyles = .ok (CellType.blank, none))
    ∧ (c.cell.firstAttribute "t" = some "s" → c.cell.firstNode "v" = none →
        c.type na stringTable dateStyles = .ok (CellType.blank, none))
    ∧ (∀ v entry, c.cell.firstAttribute "t" = some "s" →
        c.cell.firstNode "v" = some v → 0 ≤ atoi v.val →
        stringTable[(atoi v.val).toNat]? = some entry →
        c.type na stringTable dateStyles =
          .ok (if entry = na then CellType.blank else CellType.text, none))
    ∧ (c.cell.firstAttribute "t" = some "str" → c.cell.firstNode "v" = none →
        c.type na stringTable dateStyles = .ok (CellType.blank, none))
    ∧ (∀ v, c.cell.firstAttribute "t" = some "str" →
        c.cell.firstNode "v" = some v →
        c.type na stringTable dateStyles =
          .ok (if v.val = na then CellType.blank else CellType.text, none))
    ∧ (∀ t, c.cell.firstAttribute "t" = some t →
        t.toList.take 9 = "inlineStr".toList →
        c.type na stringTable dateStyles = .ok (CellType.text, none))
    ∧ (∀ t, c.cell.firstAttribute "t" = some t →
        t ∉ (["n", "b", "d", "e", "s", "str"] : List String) →
        t.toList.take 9 ≠ "inlineStr".toList →
        c.type na stringTable dateStyles =
          .ok (CellType.text, some ⟨c.row + 1, c.col + 1, t⟩)) := by
  refine ⟨?_, ?_, ?_, ?_, ?_, ?_, ?_, ?_, ?_, ?_⟩
  · rintro (h | h)
    · simp only [XlsxCell.type, h]
    · simp only [XlsxCell.type, h]
      rw [if_pos (by decide)]
  · intro h
    simp only [XlsxCell.type, h]
    rw [if_neg (by decide), if_pos (by decide)]
  · intro h
    simp only [XlsxCell.type, h]
    rw [if_neg (by decide), if_neg (by decide), if_pos (by decide)]
  · intro h
    simp only [XlsxCell.type, h]
    rw [if_neg (by decide), if_neg (by decide), if_neg (by decide),
      if_pos (by decide)]
  · intro h hv
    simp only [XlsxCell.type, h]
    rw [if_neg (by decide), if_neg (by decide), if_neg (by decide),
      if_neg (by decide), if_pos (by decide)]
    simp only [hv]
  · intro v entry h hv h0 hentry
    simp only [XlsxCell.type, h]
    rw [if_neg (by decide), if_neg (by decide), if_neg (by decide),
      if_neg (by decide), if_pos (by decide)]
    simp only [hv]
    rw [if_neg (not_lt.mpr h0), hentry]
    by_cases hna : entry = na
    · simp [hna]
    · simp [hna]
  · intro h hv
    simp only [XlsxCell.type, h]
    rw [if_neg (by decide), if_neg (by decide), if_neg (by decide),
      if_neg (by decide), if_neg (by decide), if_pos (by decide)]
    simp only [hv]
  · intro v h hv
    simp only [XlsxCell.type, h]
    rw [if_neg (by decide), if_neg (by decide), if_neg (by decide),
      if_neg (by decide), if_neg (by decide), if_pos (by decide)]
    simp only [hv]
    by_cases hna : na = v.val
    · simp [hna]
    · rw [if_neg (by simpa using hna), if_neg (fun he => hna he.symm)]
  · intro t ht htake
    have hlen9 : 9 ≤ t.length := by
      have hc := congrArg List.length htake
      have h9 : ("inlineStr" : String).toList.length = 9 := by decide
      have hl : t.length = t.toList.length := rfl
      rw [List.length_take, h9] at hc
      omega
    simp only [XlsxCell.type, ht]
    rw [if_neg (strncmpEq_false_of_ne (by decide)
          (fun he => absurd (he ▸ hlen9) (by decide))),
        if_neg (strncmpEq_false_of_ne (by decide)
          (fun he => absurd (he ▸ hlen9) (by decide))),
        if_neg (strncmpEq_false_of_ne (by decide)
          (fun he => absurd (he ▸ hlen9) (by decide))),
        if_neg (strncmpEq_false_of_ne (by decide)
          (fun he => absurd (he ▸ hlen9) (by decide))),
        if_neg (strncmpEq_false_of_ne (by decide)
          (fun he => absurd (he ▸ hlen9) (by decide))),
        if_neg (strncmpEq_false_of_ne (by decide)
          (fun he => absurd (he ▸ hlen9) (by decide))),
        if_pos ((strncmpEq_inlineStr t).mpr htake)]
  · intro t ht hmem htake
    simp only [List.mem_cons, List.not_mem_nil, or_false, not_or] at hmem
    obtain ⟨hn, hb2, hd, he2, hs, hstr⟩ := hmem
    simp only [XlsxCell.type, ht]
    rw [if_neg (strncmpEq_false_of_ne (by decide) hn),
        if_neg (strncmpEq_false_of_ne (by decide) hb2),
        if_neg (strncmpEq_false_of_ne (by decide) hd),
        if_neg (strncmpEq_false_of_ne (by decide) he2),
        if_neg (strncmpEq_false_of_ne (by decide) hs),
        if_neg (strncmpEq_false_of_ne (by decide) hstr),
        if_neg (fun hh => htake ((strncmpEq_inlineStr t).mp hh))]

/-- Witness for C1's amended theorem: the shared-string arm at the spec's
§8 example (table ["a", "b", "MISSING"], sentinel "MISSING", index 2). -/
theorem classify_by_type_attribute_witness :
    XlsxCell.type ⟨.mk "c" [("t", "s")] "" [.mk "v" [] "2" []], (0, 0)⟩
        "MISSING" ["a", "b", "MISSING"] []
      = .ok (if ("MISSING" : String) = "MISSING"
          then CellType.blank else CellType.text, none) :=
  (classify_by_type_attribute
      ⟨.mk "c" [("t", "s")] "" [.mk "v" [] "2" []], (0, 0)⟩
      "MISSING" ["a", "b", "MISSING"] []).2.2.2.2.2.1
    (.mk "v" [] "2" []) "MISSING" rfl rfl (by decide) (by decide)

/-- Counterexample to C2: a shared-string cell whose index 5 is outside the
one-entry table is a hard out-of-range error at classification time
(`std::vector::at` throws), not a warning plus a `Blank` tag. -/
theorem type_oob_counterexample :
    XlsxCell.type ⟨.mk "c" [("t", "s")] "" [.mk "v" [] "5" []], (0, 0)⟩
      "" ["a"] [] = .error 5 := rfl

/-- C2 as amended: an out-of-range shared-string index at classification
time is a hard error carrying the index (an uncaught out-of-range throw),
while the warn-and-missing treatment of an out-of-range index lives in the
generic accessor's `stringFromTable` path. -/
theorem type_oob_hard_error (c : XlsxCell) (na : String)
    (stringTable : List String) (dateStyles : List Int) (v : XmlElem)
    (ht : c.cell.firstAttribute "t" = some "s")
    (hv : c.cell.firstNode "v" = some v)
    (hoob : atoi v.val < 0 ∨ (stringTable.length : Int) ≤ atoi v.val) :
    c.type na stringTable dateStyles = .error (atoi v.val)
    ∧ c.stringFromTable v.val na stringTable =
        (none, some (c.row + 1, c.col + 1, atoi v.val)) := by
  constructor
  · simp only [XlsxCell.type, ht]
    rw [if_neg (by decide), if_neg (by decide), if_neg (by decide),
      if_neg (by decide), if_pos (by decide)]
    simp only [hv]
    rcases hoob with h | h
    · rw [if_pos h]
    · have hnn : ¬ atoi v.val < 0 := by omega
      rw [if_neg hnn]
      have hnone : stringTable[(atoi v.val).toNat]? = none := by
        apply List.getElem?_eq_none
        omega
      rw [hnone]
  · simp only [XlsxCell.stringFromTable]
    rw [if_pos hoob]

/-- Witness for C2's amended theorem: index 7 against a two-entry table. -/
theorem type_oob_hard_error_witness :
    XlsxCell.type ⟨.mk "c" [("t", "s")] "" [.mk "v" [] "7" []], (0, 0)⟩
        "" ["a", "b"] [] = .error (atoi "7")
    ∧ XlsxCell.stringFromTable
        ⟨.mk "c" [("t", "s")] "" [.mk "v" [] "7" []], (0, 0)⟩ "7" ""
        ["a", "b"] = (none, some (0 + 1, 0 + 1, atoi "7")) :=
  type_oob_hard_error ⟨.mk "c" [("t", "s")] "" [.mk "v" [] "7" []], (0, 0)⟩
    "" ["a", "b"] [] (.mk "v" [] "7" []) rfl rfl (Or.inr (by decide))
